import Mathlib

/-
Verification of the directory-tree reporter `print_directory_structure`
(src/print_directories.py) against its specification.

The filesystem subtree rooted at the start path is modelled as an inductive
tree: a directory has a base name, a list of subdirectories (in the order the
OS enumeration yields them) and a list of file names.  `os.walk` with
`topdown=True` and in-place pruning of `dirs` corresponds to the pre-order
recursion `walkDir`/`walkSubdirs` below.  A start path that does not exist or
is not a directory makes `os.walk` yield nothing; this is modelled by passing
`none` for the tree.  The timestamp produced by `datetime.now().strftime` and
the absolute root path produced by `os.path.abspath` are modelled as opaque
string inputs of the run.  Each call to the inner helper `write_line`
contributes one element to the resulting list of lines; `write_line` itself
(print to console, write line + newline to the file) is modelled by
`write_line` on an explicit two-sink state.
-/

namespace PrintDirectories

/-- A directory of the filesystem: base name, subdirectories in enumeration
order, and the names of the plain files it contains. -/
inductive DirTree : Type where
  | node (name : String) (subdirs : List DirTree) (files : List String) : DirTree

/-- Base name of a directory. -/
def DirTree.name : DirTree → String
  | .node n _ _ => n

/-- Subdirectories of a directory, in enumeration order. -/
def DirTree.subdirs : DirTree → List DirTree
  | .node _ ds _ => ds

/-- File names contained directly in a directory. -/
def DirTree.files : DirTree → List String
  | .node _ _ fs => fs

/-- The indentation unit of the source: the string literal repeated per level
in `indent = '│   ' * (level - 1)` and `subindent = '│   ' * level`. -/
def indentUnit : String := "│   "

/-- Python string repetition `s * n`. -/
def repeatStr (s : String) (n : Nat) : String := String.join (List.replicate n s)

/-- Python `f.endswith(s)` for a single suffix, decided on the character
lists of the two strings. -/
def strEndsWith (f s : String) : Bool := List.isSuffixOf s.data f.data

/-- The hard-wired tuple of line 48 of the source:
`file.endswith(('.py', '.rs', '.ts', 'Cargo.toml', '.md', '.json'))`. -/
def allowedSuffixes : List String := [".py", ".rs", ".ts", "Cargo.toml", ".md", ".json"]

/-- Python `file.endswith(t)` for the tuple `t` of suffixes: true when the
name ends with at least one of them. -/
def matchesSuffix (f : String) : Bool := allowedSuffixes.any (fun s => strEndsWith f s)

/-- Lexicographic comparison of character lists by code point, the order
Python uses to sort strings. -/
def charListLe : List Char → List Char → Bool
  | [], _ => true
  | _ :: _, [] => false
  | c :: cs, d :: ds =>
      if c.toNat < d.toNat then true
      else if d.toNat < c.toNat then false
      else charListLe cs ds

/-- Python string comparison `a <= b` (lexicographic by code point). -/
def strLe (a b : String) : Bool := charListLe a.data b.data

/-- Insert a string into an already sorted list. -/
def insertSorted (x : String) : List String → List String
  | [] => [x]
  | y :: ys => if strLe x y then x :: y :: ys else y :: insertSorted x ys

/-- Python `sorted(files)`: insertion sort by `strLe` (a stable sort with the
same contents, which is all the development relies on). -/
def sortStrings : List String → List String
  | [] => []
  | x :: xs => insertSorted x (sortStrings xs)

/-- Line 16 of the source: the default exclusion set substituted when the
caller passes `exclude_dirs=None`:
`{'.git', '__pycache__', 'target', 'node_modules', '.next', 'dist'}`. -/
def defaultExcludeDirs : List String :=
  [".git", "__pycache__", "target", "node_modules", ".next", "dist"]

/-- Lines 15-16 of the source: `if exclude_dirs is None: exclude_dirs = {...}`.
The default is substituted only for `None`, never for an empty set. -/
def resolveExclude : Option (List String) → List String
  | none => defaultExcludeDirs
  | some ex => ex

mutual
/-- Lines emitted by the `os.walk` loop for the subtree of one non-root
directory sitting at `level` path components below the root (lines 32-49 of
the source): its own line `indent + '📁 ' + folder_name + '/'` with
`indent = '│   ' * (level - 1)`, then one line `subindent + '📄 ' + file`
with `subindent = '│   ' * level` for each sorted file whose name passes the
suffix test, then the lines of the non-excluded subdirectories. -/
def walkDir (ex : List String) (level : Nat) : DirTree → List String
  | .node nm ds fs =>
    (repeatStr indentUnit (level - 1) ++ "📁 " ++ nm ++ "/") ::
      (((sortStrings fs).filter (fun f => matchesSuffix f)).map
          (fun f => repeatStr indentUnit level ++ "📄 " ++ f)
        ++ walkSubdirs ex (level + 1) ds)
termination_by structural t => t

/-- Lines emitted for a list of sibling directories: line 29 of the source,
`dirs[:] = [d for d in dirs if d not in exclude_dirs]`, prunes a directory
whose base name is in the exclusion set before `os.walk` descends into it. -/
def walkSubdirs (ex : List String) (level : Nat) : List DirTree → List String
  | [] => []
  | d :: ds =>
      (if d.name ∈ ex then [] else walkDir ex level d) ++ walkSubdirs ex level ds
termination_by structural ds => ds
end

/-- Lines emitted by the whole `os.walk` loop.  The first iteration has
`rel_path == '.'`: the source emits the fixed line `'📁 catan/'` and
`continue`s, so the files of the root itself are never printed; its
subdirectories (already pruned by line 29) follow at level 1. -/
def walkRoot (ex : List String) (t : DirTree) : List String :=
  "📁 catan/" :: walkSubdirs ex 1 t.subdirs

/-- The four header emissions of lines 22-25 of the source: title, timestamp
line, absolute root path line, and the literal `"\n"` separator. -/
def headerLines (timestamp absRoot : String) : List String :=
  ["Catan Project Directory Structure",
   "Generated at: " ++ timestamp,
   "Root path: " ++ absRoot,
   "\n"]

/-- The full sequence of `write_line` calls of one run of
`print_directory_structure`: the header, then the tree lines.  `tree = none`
models a start path that does not exist or is not a directory, on which
`os.walk` yields no triples at all; the function raises nothing in that case
and simply emits the header. -/
def print_directory_structure (timestamp absRoot : String)
    (tree : Option DirTree) (exclude_dirs : Option (List String)) : List String :=
  headerLines timestamp absRoot ++
    match tree with
    | none => []
    | some t => walkRoot (resolveExclude exclude_dirs) t

/-- The two output sinks: the console (the sequence of printed lines) and
the output file (the sequence of strings passed to `output_file.write`; the
byte content of the file is their concatenation `fileText`). -/
structure SinkState where
  console : List String
  fileWrites : List String
deriving DecidableEq

/-- Byte content of the output file: the written strings concatenated. -/
def SinkState.fileText (s : SinkState) : String := String.join s.fileWrites

/-- Lines 18-20 of the source: `print(line)` to the console and
`output_file.write(line + '\n')` to the file. -/
def write_line (s : SinkState) (line : String) : SinkState :=
  { console := s.console ++ [line], fileWrites := s.fileWrites ++ [line ++ "\n"] }

/-- The sink state after a full run: every `write_line` call applied in
order, starting from an empty console and an empty file. -/
def runSinks (timestamp absRoot : String)
    (tree : Option DirTree) (exclude_dirs : Option (List String)) : SinkState :=
  (print_directory_structure timestamp absRoot tree exclude_dirs).foldl
    write_line ⟨[], []⟩

/-- The filesystem object one emitted tree line names: the path components
of the containing directory relative to the root, its own base name, and
whether it is a directory or a file. -/
structure Entry where
  dirPath : List String
  name : String
  isDir : Bool
deriving DecidableEq

/-- Path components of the entry itself, relative to the root. -/
def Entry.path (e : Entry) : List String := e.dirPath ++ [e.name]

/-- The text of the line the source emits for this entry. -/
def Entry.render (e : Entry) : String :=
  if e.isDir then
    repeatStr indentUnit (e.path.length - 1) ++ "📁 " ++ e.name ++ "/"
  else
    repeatStr indentUnit (e.path.length - 1) ++ "📄 " ++ e.name

mutual
/-- The entries named by `walkDir ex (pfx.length + 1) d`, where `pfx` is the
relative path of the parent directory: the directory itself, its emitted
files, then the entries of its non-excluded subdirectories. -/
def entriesDir (ex : List String) (pfx : List String) : DirTree → List Entry
  | .node nm ds fs =>
    ⟨pfx, nm, true⟩ ::
      (((sortStrings fs).filter (fun f => matchesSuffix f)).map
          (fun f => ⟨pfx ++ [nm], f, false⟩)
        ++ entriesSubdirs ex (pfx ++ [nm]) ds)
termination_by structural t => t

/-- The entries named by `walkSubdirs` for a list of sibling directories
whose parent has relative path `pfx`. -/
def entriesSubdirs (ex : List String) (pfx : List String) : List DirTree → List Entry
  | [] => []
  | d :: ds =>
      (if d.name ∈ ex then [] else entriesDir ex pfx d) ++ entriesSubdirs ex pfx ds
termination_by structural ds => ds
end

/-- The entries named by all tree lines of a run except the fixed root line. -/
def entries (ex : List String) (t : DirTree) : List Entry :=
  entriesSubdirs ex [] t.subdirs

mutual
/-- Number of directories of a subtree reachable without passing through an
excluded name, the subtree root included (its own name is not checked,
matching the source, which never tests the start directory itself). -/
def reachDirCount (ex : List String) : DirTree → Nat
  | .node _ ds _ => 1 + reachDirCountList ex ds
termination_by structural t => t

/-- Reachable-directory count of a list of sibling directories. -/
def reachDirCountList (ex : List String) : List DirTree → Nat
  | [] => 0
  | d :: ds => (if d.name ∈ ex then 0 else reachDirCount ex d) + reachDirCountList ex ds
termination_by structural ds => ds
end

mutual
/-- Number of files emitted for one visited non-root directory and its
reachable subtree: files whose name passes the suffix test. -/
def emitFileCount (ex : List String) : DirTree → Nat
  | .node _ ds fs => (fs.filter (fun f => matchesSuffix f)).length + emitFileCountList ex ds
termination_by structural t => t

/-- Emitted-file count of a list of sibling directories. -/
def emitFileCountList (ex : List String) : List DirTree → Nat
  | [] => 0
  | d :: ds => (if d.name ∈ ex then 0 else emitFileCount ex d) + emitFileCountList ex ds
termination_by structural ds => ds
end

mutual
/-- Total number of directories of a subtree, the subtree root included. -/
def totalDirs : DirTree → Nat
  | .node _ ds _ => 1 + totalDirsList ds
termination_by structural t => t

/-- Total number of directories of a list of sibling subtrees. -/
def totalDirsList : List DirTree → Nat
  | [] => 0
  | d :: ds => totalDirs d + totalDirsList ds
termination_by structural ds => ds
end

/-- Inserting into a sorted list permutes consing. -/
theorem insertSorted_perm (x : String) (l : List String) :
    List.Perm (insertSorted x l) (x :: l) := by
  induction l with
  | nil => simp [insertSorted]
  | cons y ys ih =>
      simp only [insertSorted]
      by_cases h : strLe x y = true
      · simp [h]
      · simp only [h, if_neg, Bool.false_eq_true, not_false_eq_true, ite_false]
        exact (ih.cons y).trans (List.Perm.swap x y ys)

/-- `sorted(files)` is a permutation of the file list. -/
theorem sortStrings_perm (l : List String) : List.Perm (sortStrings l) l := by
  induction l with
  | nil => simp [sortStrings]
  | cons x xs ih => exact (insertSorted_perm x (sortStrings xs)).trans (ih.cons x)

/-- Filtering after sorting keeps as many elements as filtering directly. -/
theorem length_filter_sortStrings (p : String → Bool) (l : List String) :
    ((sortStrings l).filter p).length = (l.filter p).length :=
  ((sortStrings_perm l).filter p).length_eq

/-- Effect of a sequence of `write_line` calls on the two sinks: the console
receives the lines themselves, the file receives each line with a newline
appended, in the same order. -/
theorem foldl_write_line (calls : List String) :
    ∀ s : SinkState,
      (calls.foldl write_line s).console = s.console ++ calls ∧
      (calls.foldl write_line s).fileWrites =
        s.fileWrites ++ calls.map (fun l => l ++ "\n") := by
  induction calls with
  | nil => intro s; simp
  | cons c cs ih =>
      intro s
      have h := ih (write_line s c)
      simp only [List.foldl_cons, List.map_cons]
      rw [h.1, h.2]
      simp [write_line]

mutual
/-- Each line of `walkDir` renders the corresponding entry of `entriesDir`,
where the level argument of `walkDir` is the number of path components of
the directory, i.e. one more than those of its parent path `pfx`. -/
theorem walkDir_eq_entries (ex : List String) :
    ∀ (pfx : List String) (d : DirTree),
      walkDir ex (pfx.length + 1) d = (entriesDir ex pfx d).map Entry.render
  | pfx, .node nm ds fs => by
      have ih := walkSubdirs_eq_entries ex (pfx ++ [nm]) ds
      simp only [List.length_append, List.length_cons, List.length_nil, Nat.zero_add] at ih
      simp [walkDir, entriesDir, Entry.render, Entry.path, List.map_map, ih,
        Function.comp_def]
termination_by structural _ d => d

/-- List version of `walkDir_eq_entries`. -/
theorem walkSubdirs_eq_entries (ex : List String) :
    ∀ (pfx : List String) (ds : List DirTree),
      walkSubdirs ex (pfx.length + 1) ds = (entriesSubdirs ex pfx ds).map Entry.render
  | _, [] => by simp [walkSubdirs, entriesSubdirs]
  | pfx, d :: ds => by
      have ih1 := walkDir_eq_entries ex pfx d
      have ih2 := walkSubdirs_eq_entries ex pfx ds
      by_cases h : d.name ∈ ex
      · simp [walkSubdirs, entriesSubdirs, h, ih2]
      · simp [walkSubdirs, entriesSubdirs, h, ih1, ih2]
termination_by structural _ ds => ds
end

mutual
/-- If no component of the parent path is excluded and the directory itself
is not excluded, then no entry of its subtree has an excluded ancestor, and
no directory entry of its subtree is itself excluded. -/
theorem entriesDir_clean (ex : List String) :
    ∀ (pfx : List String) (d : DirTree), (∀ c ∈ pfx, c ∉ ex) → d.name ∉ ex →
      ∀ e ∈ entriesDir ex pfx d,
        (∀ c ∈ e.dirPath, c ∉ ex) ∧ (e.isDir = true → e.name ∉ ex)
  | pfx, .node nm ds fs, hpfx, hnm => by
      intro e he
      rw [entriesDir, List.mem_cons, List.mem_append] at he
      have hboth : ∀ c ∈ pfx ++ [nm], c ∉ ex := by
        intro c hc
        rcases List.mem_append.mp hc with h | h
        · exact hpfx c h
        · rw [List.mem_singleton] at h
          exact h ▸ hnm
      rcases he with rfl | hfile | hsub
      · exact ⟨hpfx, fun _ => hnm⟩
      · rcases List.mem_map.mp hfile with ⟨f, _, rfl⟩
        exact ⟨hboth, fun h => nomatch h⟩
      · exact entriesSubdirs_clean ex (pfx ++ [nm]) ds hboth e hsub
termination_by structural _ d _ _ => d

/-- List version of `entriesDir_clean`. -/
theorem entriesSubdirs_clean (ex : List String) :
    ∀ (pfx : List String) (ds : List DirTree), (∀ c ∈ pfx, c ∉ ex) →
      ∀ e ∈ entriesSubdirs ex pfx ds,
        (∀ c ∈ e.dirPath, c ∉ ex) ∧ (e.isDir = true → e.name ∉ ex)
  | _, [], _ => by intro e he; rw [entriesSubdirs] at he; exact absurd he (List.not_mem_nil e)
  | pfx, d :: ds, hpfx => by
      intro e he
      rw [entriesSubdirs, List.mem_append] at he
      rcases he with hd | hds
      · by_cases h : d.name ∈ ex
        · rw [if_pos h] at hd
          exact absurd hd (List.not_mem_nil e)
        · rw [if_neg h] at hd
          exact entriesDir_clean ex pfx d hpfx h e hd
      · exact entriesSubdirs_clean ex pfx ds hpfx e hds
termination_by structural _ ds _ => ds
end

mutual
/-- One entry per visited directory and one per emitted file. -/
theorem entriesDir_length (ex : List String) :
    ∀ (pfx : List String) (d : DirTree),
      (entriesDir ex pfx d).length = reachDirCount ex d + emitFileCount ex d
  | pfx, .node nm ds fs => by
      have ih := entriesSubdirs_length ex (pfx ++ [nm]) ds
      simp only [entriesDir, reachDirCount, emitFileCount, List.length_cons,
        List.length_append, List.length_map, ih, length_filter_sortStrings]
      omega
termination_by structural _ d => d

/-- List version of `entriesDir_length`. -/
theorem entriesSubdirs_length (ex : List String) :
    ∀ (pfx : List String) (ds : List DirTree),
      (entriesSubdirs ex pfx ds).length = reachDirCountList ex ds + emitFileCountList ex ds
  | _, [] => by simp [entriesSubdirs, reachDirCountList, emitFileCountList]
  | pfx, d :: ds => by
      have ih1 := entriesDir_length ex pfx d
      have ih2 := entriesSubdirs_length ex pfx ds
      by_cases h : d.name ∈ ex
      · simp [entriesSubdirs, reachDirCountList, emitFileCountList, h, ih2]
      · simp only [entriesSubdirs, reachDirCountList, emitFileCountList, if_neg h,
          List.length_append, ih1, ih2]
        omega
termination_by structural _ ds => ds
end

mutual
/-- The directory entries of a subtree are exactly as many as its reachable
directories. -/
theorem entriesDir_dirCount (ex : List String) :
    ∀ (pfx : List String) (d : DirTree),
      ((entriesDir ex pfx d).filter (fun e => e.isDir)).length = reachDirCount ex d
  | pfx, .node nm ds fs => by
      have ih := entriesSubdirs_dirCount ex (pfx ++ [nm]) ds
      simp [entriesDir, reachDirCount, List.filter_append, List.filter_map, ih,
        Function.comp_def, Nat.add_comm]
termination_by structural _ d => d

/-- List version of `entriesDir_dirCount`. -/
theorem entriesSubdirs_dirCount (ex : List String) :
    ∀ (pfx : List String) (ds : List DirTree),
      ((entriesSubdirs ex pfx ds).filter (fun e => e.isDir)).length = reachDirCountList ex ds
  | _, [] => by simp [entriesSubdirs, reachDirCountList]
  | pfx, d :: ds => by
      have ih1 := entriesDir_dirCount ex pfx d
      have ih2 := entriesSubdirs_dirCount ex pfx ds
      by_cases h : d.name ∈ ex
      · simp [entriesSubdirs, reachDirCountList, h, ih2]
      · simp [entriesSubdirs, reachDirCountList, h, List.filter_append, ih1, ih2]
termination_by structural _ ds => ds
end

mutual
/-- With an empty exclusion set every directory is reachable. -/
theorem reachDirCount_nil : ∀ t : DirTree, reachDirCount [] t = totalDirs t
  | .node nm ds fs => by
      rw [reachDirCount, totalDirs, reachDirCountList_nil ds]
termination_by structural t => t

/-- List version of `reachDirCount_nil`. -/
theorem reachDirCountList_nil : ∀ ds : List DirTree, reachDirCountList [] ds = totalDirsList ds
  | [] => by rw [reachDirCountList, totalDirsList]
  | d :: ds => by
      rw [reachDirCountList, totalDirsList, reachDirCount_nil d, reachDirCountList_nil ds,
        if_neg (List.not_mem_nil d.name)]
termination_by structural ds => ds
end

/-- Helper: the reachable-directory count of a tree is one (the root) plus
the count over its subdirectories. -/
theorem reachDirCount_eq (ex : List String) (t : DirTree) :
    reachDirCount ex t = 1 + reachDirCountList ex t.subdirs := by
  cases t with
  | node nm ds fs => rw [reachDirCount, DirTree.subdirs]

mutual
/-- Every file entry of a subtree passes the hard-wired suffix test. -/
theorem entriesDir_files_suffix (ex : List String) :
    ∀ (pfx : List String) (d : DirTree), ∀ e ∈ entriesDir ex pfx d,
      e.isDir = false → matchesSuffix e.name = true
  | pfx, .node nm ds fs => by
      intro e he hdir
      rw [entriesDir, List.mem_cons, List.mem_append] at he
      rcases he with rfl | hfile | hsub
      · simp at hdir
      · rcases List.mem_map.mp hfile with ⟨f, hf, rfl⟩
        simpa using List.of_mem_filter hf
      · exact entriesSubdirs_files_suffix ex (pfx ++ [nm]) ds e hsub hdir
termination_by structural _ d => d

/-- List version of `entriesDir_files_suffix`. -/
theorem entriesSubdirs_files_suffix (ex : List String) :
    ∀ (pfx : List String) (ds : List DirTree), ∀ e ∈ entriesSubdirs ex pfx ds,
      e.isDir = false → matchesSuffix e.name = true
  | _, [] => by
      intro e he _
      rw [entriesSubdirs] at he
      exact absurd he (List.not_mem_nil e)
  | pfx, d :: ds => by
      intro e he hdir
      rw [entriesSubdirs, List.mem_append] at he
      rcases he with hd | hds
      · by_cases h : d.name ∈ ex
        · rw [if_pos h] at hd
          exact absurd hd (List.not_mem_nil e)
        · rw [if_neg h] at hd
          exact entriesDir_files_suffix ex pfx d e hd hdir
      · exact entriesSubdirs_files_suffix ex pfx ds e hds hdir
termination_by structural _ ds => ds
end

/-- A concrete tree used to instantiate the universally quantified theorems:
a root with a `src` directory holding `main.py`, a `node_modules` directory
holding `pkg.json` and a subdirectory, and a file directly at the root. -/
def exampleTree : DirTree :=
  .node "catan"
    [.node "src" [] ["main.py"],
     .node "node_modules" [.node "pkg" [] []] ["pkg.json"]]
    ["README.md"]

/-- C1: the tree lines of the output past the fixed root line render exactly
the entries of the traversal, and no entry has an ancestor directory
strictly below the root whose base name is excluded; no emitted directory is
itself excluded, so excluded directories and their subtrees are never
visited or emitted. -/
theorem excluded_never_emitted (t : DirTree) (ex : List String) :
    walkRoot ex t = "📁 catan/" :: (entries ex t).map Entry.render ∧
    ∀ e ∈ entries ex t,
      (∀ c ∈ e.dirPath, c ∉ ex) ∧ (e.isDir = true → e.name ∉ ex) := by
  constructor
  · simpa [walkRoot, entries] using walkSubdirs_eq_entries ex [] t.subdirs
  · exact fun e he =>
      entriesSubdirs_clean ex [] t.subdirs (by simp) e he

/-- Witness for C1 at a concrete tree, exclusion set and emitted entry. -/
theorem excluded_never_emitted_witness :
    (∀ c ∈ (⟨[], "src", true⟩ : Entry).dirPath, c ∉ ["node_modules"]) ∧
    ((⟨[], "src", true⟩ : Entry).isDir = true →
      (⟨[], "src", true⟩ : Entry).name ∉ ["node_modules"]) :=
  (excluded_never_emitted exampleTree ["node_modules"]).2 ⟨[], "src", true⟩ (by decide)

/-- C2 counterexample: with a missing root the run still emits the header,
so the output has nonzero length and nonempty bytes reach the output file. -/
theorem missing_root_counterexample :
    (print_directory_structure "2024-01-01 00:00:00" "/does/not/exist" none none).length ≠ 0 ∧
    (runSinks "2024-01-01 00:00:00" "/does/not/exist" none none).fileWrites ≠ [] := by
  constructor <;> decide

/-- C2 amended: on a missing (or non-directory) root, `os.walk` yields
nothing and the call does not fail: it emits exactly the four header lines,
which are also written to the output file. -/
theorem missing_root_emits_header_only (ts ar : String) (exo : Option (List String)) :
    print_directory_structure ts ar none exo = headerLines ts ar ∧
    (headerLines ts ar).length = 4 ∧
    (runSinks ts ar none exo).fileWrites = (headerLines ts ar).map (fun l => l ++ "\n") := by
  refine ⟨by simp [print_directory_structure], rfl, ?_⟩
  have h := foldl_write_line (print_directory_structure ts ar none exo) ⟨[], []⟩
  simpa [runSinks, print_directory_structure] using h.2

/-- C3 counterexample: an empty root directory produces five emitted lines
(the four header lines plus the fixed root line), not exactly one. -/
theorem empty_root_line_count_counterexample :
    (print_directory_structure "2024-01-01 00:00:00" "/catan"
        (some (DirTree.node "catan" [] [])) none).length = 5 ∧
    (print_directory_structure "2024-01-01 00:00:00" "/catan"
        (some (DirTree.node "catan" [] [])) none).length ≠ 1 := by
  constructor <;> decide

/-- C3 amended: the total number of emitted lines is four header lines plus
the number of non-excluded directories (the root included) plus the number
of emitted files; for an empty root the output is five lines. -/
theorem total_line_count (ts ar : String) (t : DirTree) (exo : Option (List String)) :
    (print_directory_structure ts ar (some t) exo).length =
      4 + reachDirCount (resolveExclude exo) t
        + emitFileCountList (resolveExclude exo) t.subdirs := by
  have hmap := walkSubdirs_eq_entries (resolveExclude exo) [] t.subdirs
  simp only [List.length_nil, Nat.zero_add] at hmap
  have hlen := entriesSubdirs_length (resolveExclude exo) [] t.subdirs
  simp only [print_directory_structure, headerLines, walkRoot, List.length_append,
    List.cons_append, List.length_cons, List.length_nil, hmap, List.length_map, hlen,
    reachDirCount_eq]
  omega

/-- C4 counterexample: the source accepts no suffix-filter argument, and in
the only behaviour it has, a file of a visited directory whose name matches
none of the hard-wired suffixes is never emitted. -/
theorem unfiltered_emission_counterexample :
    "notes.txt" ∈ (DirTree.node "a" [] ["notes.txt"]).files ∧
    walkRoot [] (DirTree.node "r" [DirTree.node "a" [] ["notes.txt"]] []) =
      ["📁 catan/", "📁 a/"] := by
  constructor <;> decide

/-- C4 amended: the suffix allow-list is hard-wired, not an optional
parameter: every emitted file entry of any run has a name that passes the
fixed suffix test, and files failing it are never emitted. -/
theorem emitted_files_match_allowed_suffix (t : DirTree) (ex : List String) :
    walkRoot ex t = "📁 catan/" :: (entries ex t).map Entry.render ∧
    ∀ e ∈ entries ex t, e.isDir = false → matchesSuffix e.name = true := by
  constructor
  · simpa [walkRoot, entries] using walkSubdirs_eq_entries ex [] t.subdirs
  · exact fun e he hdir => entriesSubdirs_files_suffix ex [] t.subdirs e he hdir

/-- Witness for C4 at a concrete tree and emitted file entry. -/
theorem emitted_files_match_allowed_suffix_witness :
    matchesSuffix (⟨["src"], "main.py", false⟩ : Entry).name = true :=
  (emitted_files_match_allowed_suffix exampleTree ["node_modules"]).2
    ⟨["src"], "main.py", false⟩ (by decide) (by decide)

/-- C5 counterexample: for a root directory named `example` the emitted root
line is the fixed text, not the base name of the root. -/
theorem root_line_counterexample :
    walkRoot [] (DirTree.node "example" [] []) = ["📁 catan/"] ∧
    "📁 catan/" ≠ "📁 example/" := by
  constructor <;> decide

/-- C5 amended: every non-root directory entry is emitted as indentation of
one unit per path component below the first, then the marker, its own base
name and a trailing slash; the root line however is the fixed text
`📁 catan/` independent of the root base name. -/
theorem directory_line_shape (t : DirTree) (ex : List String) :
    walkRoot ex t = "📁 catan/" :: (entries ex t).map Entry.render ∧
    ∀ e ∈ entries ex t, e.isDir = true →
      Entry.render e = repeatStr indentUnit (e.path.length - 1) ++ "📁 " ++ e.name ++ "/" := by
  constructor
  · simpa [walkRoot, entries] using walkSubdirs_eq_entries ex [] t.subdirs
  · intro e he hdir
    rw [Entry.render, if_pos hdir]

/-- Witness for C5 at a concrete tree and emitted directory entry. -/
theorem directory_line_shape_witness :
    Entry.render ⟨[], "src", true⟩ =
      repeatStr indentUnit ((⟨[], "src", true⟩ : Entry).path.length - 1) ++ "📁 " ++
        (⟨[], "src", true⟩ : Entry).name ++ "/" :=
  (directory_line_shape exampleTree ["node_modules"]).2 ⟨[], "src", true⟩ (by decide) rfl

/-- C6 counterexample: two runs over the same unmodified tree at different
times differ in the timestamp line, so the outputs are not identical. -/
theorem timestamp_output_counterexample :
    print_directory_structure "2024-01-01 10:00:00" "/catan"
        (some (DirTree.node "catan" [] [])) none ≠
      print_directory_structure "2024-01-01 10:00:01" "/catan"
        (some (DirTree.node "catan" [] [])) none := by
  decide

/-- C6 amended: two runs over an unmodified tree agree on every output line
except the `Generated at` timestamp line (position 1); with equal timestamps
the outputs are identical. -/
theorem output_agrees_except_timestamp (ts1 ts2 ar : String)
    (tree : Option DirTree) (exo : Option (List String)) :
    (print_directory_structure ts1 ar tree exo).eraseIdx 1 =
      (print_directory_structure ts2 ar tree exo).eraseIdx 1 := by
  simp [print_directory_structure, headerLines, List.eraseIdx]

/-- C7 counterexample: a directory one path component below the root is
emitted with empty indentation, not with the unit repeated once. -/
theorem indent_depth_counterexample :
    walkRoot [] (DirTree.node "r" [DirTree.node "src" [] []] []) =
      ["📁 catan/", "📁 src/"] ∧
    "📁 src/" ≠ repeatStr indentUnit 1 ++ "📁 " ++ "src" ++ "/" := by
  constructor <;> decide

/-- C7 amended: an emitted entry whose path has k components relative to the
root is indented with the unit repeated (k - 1) times — not k times; since a
file entry has one component more than its containing directory, each file
line is indented exactly one unit deeper than its directory line. -/
theorem indentation_shape (t : DirTree) (ex : List String) :
    walkRoot ex t = "📁 catan/" :: (entries ex t).map Entry.render ∧
    ∀ e ∈ entries ex t,
      Entry.render e = repeatStr indentUnit (e.path.length - 1) ++
        (if e.isDir then "📁 " ++ e.name ++ "/" else "📄 " ++ e.name) ∧
      e.path.length = e.dirPath.length + 1 := by
  refine ⟨by simpa [walkRoot, entries] using walkSubdirs_eq_entries ex [] t.subdirs, ?_⟩
  intro e he
  refine ⟨?_, by simp [Entry.path]⟩
  by_cases h : e.isDir
  · rw [Entry.render, if_pos h, if_pos h, String.append_assoc, String.append_assoc,
      String.append_assoc]
  · rw [Entry.render, if_neg h, if_neg h, String.append_assoc]

/-- Witness for C7 at a concrete tree and emitted file entry. -/
theorem indentation_shape_witness :
    Entry.render ⟨["src"], "main.py", false⟩ =
      repeatStr indentUnit ((⟨["src"], "main.py", false⟩ : Entry).path.length - 1) ++
        (if (⟨["src"], "main.py", false⟩ : Entry).isDir then
          "📁 " ++ (⟨["src"], "main.py", false⟩ : Entry).name ++ "/"
        else "📄 " ++ (⟨["src"], "main.py", false⟩ : Entry).name) ∧
      (⟨["src"], "main.py", false⟩ : Entry).path.length =
        (⟨["src"], "main.py", false⟩ : Entry).dirPath.length + 1 :=
  (indentation_shape exampleTree ["node_modules"]).2 ⟨["src"], "main.py", false⟩ (by decide)

/-- C8 counterexample: `build` is not a member of the default exclusion set
of the source. -/
theorem default_excludes_counterexample :
    ¬ (".git" ∈ defaultExcludeDirs ∧ "node_modules" ∈ defaultExcludeDirs ∧
       "__pycache__" ∈ defaultExcludeDirs ∧ "dist" ∈ defaultExcludeDirs ∧
       "build" ∈ defaultExcludeDirs) := by
  decide

/-- C8 amended: the default exclusion set substituted for an omitted
argument is {.git, __pycache__, target, node_modules, .next, dist}: it
includes .git, node_modules, __pycache__ and dist, but not build. -/
theorem default_exclude_contents :
    resolveExclude none = defaultExcludeDirs ∧
    ".git" ∈ defaultExcludeDirs ∧ "__pycache__" ∈ defaultExcludeDirs ∧
    "target" ∈ defaultExcludeDirs ∧ "node_modules" ∈ defaultExcludeDirs ∧
    ".next" ∈ defaultExcludeDirs ∧ "dist" ∈ defaultExcludeDirs ∧
    "build" ∉ defaultExcludeDirs := by
  decide

/-- C9: the console and the output file receive identical line-by-line
text: the console prints exactly the emitted lines, and the file receives
exactly the same lines in the same order, each with a newline appended. -/
theorem sinks_receive_identical_lines (ts ar : String)
    (tree : Option DirTree) (exo : Option (List String)) :
    (runSinks ts ar tree exo).console = print_directory_structure ts ar tree exo ∧
    (runSinks ts ar tree exo).fileWrites =
      (print_directory_structure ts ar tree exo).map (fun l => l ++ "\n") := by
  have h := foldl_write_line (print_directory_structure ts ar tree exo) ⟨[], []⟩
  simpa [runSinks] using h

/-- C10: the built-in default exclusion set is substituted only for an
omitted (None) argument, not for an empty one: with the empty exclusion set
the traversal excludes nothing — it emits one directory entry per
subdirectory of the tree and reaches every directory. -/
theorem empty_exclusion_distinct_from_default (t : DirTree) :
    resolveExclude (some []) = [] ∧
    resolveExclude none = defaultExcludeDirs ∧
    ((entries [] t).filter (fun e => e.isDir)).length = totalDirsList t.subdirs ∧
    reachDirCount [] t = totalDirs t := by
  refine ⟨rfl, rfl, ?_, reachDirCount_nil t⟩
  rw [entries, entriesSubdirs_dirCount [] [] t.subdirs, reachDirCountList_nil]

end PrintDirectories
